import Mathlib

/-!
Shallow embedding of the `luhn-rs` crate (`src/lib.rs`): a Luhn mod N
check-character generator/validator over a caller-supplied alphabet.

Modelling conventions:
* a Rust `char` is its Unicode scalar value, as a `Nat`;
* a Rust `&str` / `String` is the `List Nat` of its characters;
* Rust `str::len()` (the UTF-8 *byte* length) is `strLen`, the sum of the
  UTF-8 encoded sizes of the characters;
* fallible functions return `Except LuhnError _`; a possible panic
  (out-of-bounds index, `unwrap` on `None`) is the outer `none` of an
  `Option`;
* `usize` arithmetic is modelled on `Nat` (no input reachable in practice
  overflows the 64-bit accumulator);
* `Vec::sort` is modelled by insertion sort over `≤` (any stable sort
  produces the same, uniquely determined, sorted list);
* `HashSet` membership is modelled by membership in the list of already
  inserted elements;
* `slice::binary_search` on the sorted alphabet is modelled by its
  contract: the index of the element when present, failure otherwise.
-/

/-- The error type of the crate (`LuhnError` in `src/lib.rs`). -/
inductive LuhnError where
  /-- The given alphabet has a duplicated character. -/
  | NotUnique (ch : Nat)
  /-- The input string has a character that is invalid for the alphabet. -/
  | InvalidCharacter (ch : Nat)
  /-- The input was the empty string or a single character. -/
  | EmptyString
deriving DecidableEq, Repr

/-- UTF-8 encoded size in bytes of a Unicode scalar value; this is what one
character contributes to Rust's `str::len()`. -/
def csize (c : Nat) : Nat :=
  if c < 0x80 then 1 else if c < 0x800 then 2 else if c < 0x10000 then 3 else 4

/-- Rust `str::len()`: the byte length of the UTF-8 encoding. -/
def strLen (s : List Nat) : Nat :=
  (s.map csize).sum

/-- The `Luhn` struct: owns its (sorted) alphabet. -/
structure Luhn where
  alphabet : List Nat
deriving DecidableEq, Repr

/-- `chars.sort()` in `Luhn::new`. -/
def sortChars (l : List Nat) : List Nat :=
  List.insertionSort (· ≤ ·) l

/-- The duplicate scan of `Luhn::new`: walk the (sorted) characters keeping a
set (`seen`) of those already inserted, and report the first character found
to be already present. -/
def firstDup : List Nat → List Nat → Option Nat
  | [], _ => none
  | c :: rest, seen => if c ∈ seen then some c else firstDup rest (c :: seen)

/-- First value occurring twice in adjacent positions; on a sorted list this
is what the seen-set scan `firstDup` finds. -/
def firstAdj : List Nat → Option Nat
  | x :: y :: rest => if x = y then some x else firstAdj (y :: rest)
  | _ => none

/-- `Luhn::new`: reject an empty alphabet, sort, reject the first duplicate
found in the sorted order, and store the sorted alphabet. -/
def Luhn.new (alphabet : List Nat) : Except LuhnError Luhn :=
  if alphabet.length < 1 then .error .EmptyString
  else
    let chars := sortChars alphabet
    match firstDup chars [] with
    | some ch => .error (.NotUnique ch)
    | none => .ok ⟨chars⟩

/-- `Luhn::codepoint_from_character`: `binary_search` on the sorted alphabet,
modelled by its contract (index when present, error otherwise). -/
def Luhn.codepoint_from_character (l : Luhn) (ch : Nat) : Except LuhnError Nat :=
  if ch ∈ l.alphabet then .ok (l.alphabet.indexOf ch)
  else .error (.InvalidCharacter ch)

/-- `Luhn::character_from_codepoint`: `self.alphabet[cp]`; `none` models the
out-of-bounds panic. -/
def Luhn.character_from_codepoint (l : Luhn) (cp : Nat) : Option Nat :=
  l.alphabet[cp]?

/-- The `for ch in s.chars()` loop of `Luhn::generate`, returning the final
`sum`; `factor` and `sum` are the loop-carried mutable locals. -/
def Luhn.genSum (l : Luhn) : List Nat → Nat → Nat → Except LuhnError Nat
  | [], _, sum => .ok sum
  | ch :: rest, factor, sum =>
    match l.codepoint_from_character ch with
    | .error e => .error e
    | .ok codepoint =>
      let addend := factor * codepoint
      let factor' := if factor = 2 then 1 else 2
      let n := l.alphabet.length
      let addend' := addend / n + addend % n
      l.genSum rest factor' (sum + addend')

/-- `Luhn::generate`. -/
def Luhn.generate (l : Luhn) (s : List Nat) : Option (Except LuhnError Nat) :=
  if strLen s = 0 then some (.error .EmptyString)
  else
    match l.genSum s 1 0 with
    | .error e => some (.error e)
    | .ok sum =>
      let n := l.alphabet.length
      let remainder := sum % n
      let check_codepoint := (n - remainder) % n
      match l.character_from_codepoint check_codepoint with
      | some ch => some (.ok ch)
      | none => none

/-- The head computation of `Luhn::validate`:
`s.char_indices().take_while(|&(index, _)| index < limit).map(|(_, ch)| ch)`,
where `i` is the byte index of the next character. -/
def headChars : List Nat → Nat → Nat → List Nat
  | [], _, _ => []
  | c :: rest, i, limit => if i < limit then c :: headChars rest (i + csize c) limit else []

/-- `Luhn::validate`: split off the trailing check character by byte index,
generate over the head, compare. -/
def Luhn.validate (l : Luhn) (s : List Nat) : Option (Except LuhnError Bool) :=
  if strLen s ≤ 1 then some (.error .EmptyString)
  else
    let head := headChars s 0 (strLen s - 1)
    match s.getLast? with
    | none => none
    | some luhn =>
      match l.generate head with
      | none => none
      | some (.error e) => some (.error e)
      | some (.ok expected) => some (.ok (luhn == expected))

/-- `Luhn::validate_with`: like `validate`, with the check character supplied
out of band. -/
def Luhn.validate_with (l : Luhn) (s : List Nat) (check : Nat) : Option (Except LuhnError Bool) :=
  if strLen s ≤ 1 then some (.error .EmptyString)
  else
    match l.generate s with
    | none => none
    | some (.error e) => some (.error e)
    | some (.ok expected) => some (.ok (check == expected))

/-- The checksum sum exactly as the specification describes it: scan left to
right, `factor` starting at 1 and toggling between 1 and 2 after each
character, `addend = factor * codepoint` reduced as
`addend / n + addend % n`, accumulated. Spec-side counterpart used to state
the refinement claim about `Luhn.generate`. -/
def claimSum (l : Luhn) : List Nat → Nat → Nat
  | [], _ => 0
  | ch :: rest, factor =>
    let n := l.alphabet.length
    let a := factor * l.alphabet.indexOf ch
    (a / n + a % n) + claimSum l rest (if factor = 2 then 1 else 2)

/-- The alphabet `"abcdef"`. -/
def alphaAF : List Nat := [97, 98, 99, 100, 101, 102]

/-- The engine built from `"abcdef"`. -/
def luhnAF : Luhn := ⟨alphaAF⟩

/-- The alphabet `"0123456789"`. -/
def alphaDigits : List Nat := [48, 49, 50, 51, 52, 53, 54, 55, 56, 57]

/-- The engine built from `"0123456789"`. -/
def luhnDigits : Luhn := ⟨alphaDigits⟩

/-- The engine built from `"ab"`. -/
def luhnAB : Luhn := ⟨[97, 98]⟩

/-- The engine built from `"àá"` (U+00E0, U+00E1): two-byte characters. -/
def luhnAccent : Luhn := ⟨[224, 225]⟩

example : Luhn.new alphaAF = .ok luhnAF := rfl
example : luhnAF.generate alphaAF = some (.ok 101) := rfl
example : luhnDigits.generate [55, 57, 57, 50, 55, 51, 57, 56, 55, 49] = some (.ok 51) := rfl
example : luhnAF.validate [97, 98, 99, 100, 101, 102, 101] = some (.ok true) := rfl
example : luhnAF.validate [97, 98, 99, 100, 101, 102, 100] = some (.ok false) := rfl
example : Luhn.new [97, 98, 99, 100, 101, 97] = .error (.NotUnique 97) := rfl
example : luhnAccent.validate [225] = some (.ok true) := rfl
example : luhnAccent.validate [225, 225] = some (.ok false) := rfl
example : luhnAccent.generate [225] = some (.ok 225) := rfl
example : luhnAB.validate_with [97] 97 = some (.error .EmptyString) := rfl
example : Luhn.new [98, 98, 97, 97] = .error (.NotUnique 97) := rfl

/-! ### Basic lemmas about byte lengths -/

theorem csize_pos (c : Nat) : 0 < csize c := by
  unfold csize
  split <;> try exact Nat.zero_lt_one
  split <;> try exact Nat.zero_lt_succ _
  split <;> exact Nat.zero_lt_succ _

theorem strLen_nil : strLen [] = 0 := rfl

theorem strLen_cons (c : Nat) (s : List Nat) : strLen (c :: s) = csize c + strLen s := by
  simp [strLen]

theorem strLen_append (s t : List Nat) : strLen (s ++ t) = strLen s + strLen t := by
  simp [strLen]

theorem strLen_eq_zero {s : List Nat} : strLen s = 0 ↔ s = [] := by
  cases s with
  | nil => simp [strLen_nil]
  | cons c rest =>
    simp only [strLen_cons]
    constructor
    · intro h
      exact absurd h (by have := csize_pos c; omega)
    · intro h
      exact absurd h (by simp)

theorem length_le_strLen (s : List Nat) : s.length ≤ strLen s := by
  induction s with
  | nil => simp [strLen_nil]
  | cons c rest ih =>
    rw [strLen_cons]
    have := csize_pos c
    simp only [List.length_cons]
    omega

/-! ### The construction `Luhn.new` -/

theorem sortChars_perm (a : List Nat) : (sortChars a).Perm a :=
  List.perm_insertionSort _ a

theorem sortChars_sorted (a : List Nat) : (sortChars a).Sorted (· ≤ ·) :=
  List.sorted_insertionSort _ a

theorem mem_sortChars {a : List Nat} {c : Nat} : c ∈ sortChars a ↔ c ∈ a :=
  (sortChars_perm a).mem_iff

theorem new_ok {a : List Nat} {l : Luhn}
    (h : Luhn.new a = .ok l) : l.alphabet = sortChars a ∧ 1 ≤ a.length := by
  unfold Luhn.new at h
  split at h
  · exact absurd h (by simp)
  · rename_i hlen
    dsimp only at h
    split at h
    · exact absurd h (by simp)
    · cases h
      exact ⟨rfl, by omega⟩

theorem new_ok_alphabet_ne_nil {a : List Nat} {l : Luhn}
    (h : Luhn.new a = .ok l) : l.alphabet ≠ [] := by
  obtain ⟨ha, hlen⟩ := new_ok h
  intro hnil
  rw [ha] at hnil
  have := (sortChars_perm a).length_eq
  rw [hnil] at this
  simp at this
  omega

/-! ### The generate loop -/

theorem genSum_eq_claimSum (l : Luhn) :
    ∀ (p : List Nat) (f s0 : Nat), (∀ ch ∈ p, ch ∈ l.alphabet) →
      l.genSum p f s0 = .ok (s0 + claimSum l p f) := by
  intro p
  induction p with
  | nil => intro f s0 _; simp [Luhn.genSum, claimSum]
  | cons ch rest ih =>
    intro f s0 hmem
    have hch : ch ∈ l.alphabet := hmem ch (by simp)
    rw [Luhn.genSum, Luhn.codepoint_from_character, if_pos hch]
    dsimp only
    rw [ih _ _ (fun c hc => hmem c (List.mem_cons_of_mem _ hc))]
    rw [claimSum]
    rw [Nat.add_assoc]

theorem claim_index_lt (l : Luhn) (hne : l.alphabet ≠ []) (x : Nat) :
    (l.alphabet.length - x % l.alphabet.length) % l.alphabet.length < l.alphabet.length :=
  Nat.mod_lt _ (List.length_pos.mpr hne)

theorem generate_eq_claim (l : Luhn) (p : List Nat) (hne : l.alphabet ≠ [])
    (hp : p ≠ []) (hmem : ∀ ch ∈ p, ch ∈ l.alphabet) :
    l.generate p =
      some (.ok (l.alphabet.getD
        ((l.alphabet.length - claimSum l p 1 % l.alphabet.length) % l.alphabet.length) 0)) := by
  have hlen : ¬ strLen p = 0 := fun h => hp (strLen_eq_zero.mp h)
  rw [Luhn.generate, if_neg hlen, genSum_eq_claimSum l p 1 0 hmem]
  dsimp only
  rw [Nat.zero_add]
  have hidx := claim_index_lt l hne (claimSum l p 1)
  rw [Luhn.character_from_codepoint, List.getElem?_eq_getElem hidx,
    List.getD_eq_getElem l.alphabet 0 hidx]

theorem genSum_error_form (l : Luhn) :
    ∀ (p : List Nat) (f s0 : Nat) (e : LuhnError), l.genSum p f s0 = .error e →
      ∃ ch, ch ∈ p ∧ ch ∉ l.alphabet ∧ e = .InvalidCharacter ch := by
  intro p
  induction p with
  | nil => intro f s0 e h; exact absurd h (by simp [Luhn.genSum])
  | cons ch rest ih =>
    intro f s0 e h
    rw [Luhn.genSum, Luhn.codepoint_from_character] at h
    by_cases hch : ch ∈ l.alphabet
    · rw [if_pos hch] at h
      dsimp only at h
      obtain ⟨c, hc1, hc2, hc3⟩ := ih _ _ _ h
      exact ⟨c, List.mem_cons_of_mem _ hc1, hc2, hc3⟩
    · rw [if_neg hch] at h
      dsimp only at h
      cases h
      exact ⟨ch, by simp, hch, rfl⟩

theorem genSum_first_bad (l : Luhn) (b : Nat) (post : List Nat) (hb : b ∉ l.alphabet) :
    ∀ (pre : List Nat) (f s0 : Nat), (∀ ch ∈ pre, ch ∈ l.alphabet) →
      l.genSum (pre ++ b :: post) f s0 = .error (.InvalidCharacter b) := by
  intro pre
  induction pre with
  | nil =>
    intro f s0 _
    rw [List.nil_append, Luhn.genSum, Luhn.codepoint_from_character, if_neg hb]
  | cons ch rest ih =>
    intro f s0 hmem
    have hch : ch ∈ l.alphabet := hmem ch (by simp)
    rw [List.cons_append, Luhn.genSum, Luhn.codepoint_from_character, if_pos hch]
    dsimp only
    exact ih _ _ (fun c hc => hmem c (List.mem_cons_of_mem _ hc))

theorem generate_error_empty_iff (l : Luhn) (p : List Nat) :
    l.generate p = some (.error .EmptyString) ↔ p = [] := by
  constructor
  · intro h
    by_contra hp
    have hlen : ¬ strLen p = 0 := fun hz => hp (strLen_eq_zero.mp hz)
    rw [Luhn.generate, if_neg hlen] at h
    cases hgs : l.genSum p 1 0 with
    | error e =>
      rw [hgs] at h
      dsimp only at h
      obtain ⟨c, _, _, hc⟩ := genSum_error_form l p 1 0 e hgs
      rw [hc] at h
      cases h
    | ok sum =>
      rw [hgs] at h
      dsimp only at h
      cases hcp : l.character_from_codepoint ((l.alphabet.length - sum % l.alphabet.length) % l.alphabet.length) with
      | none => rw [hcp] at h; cases h
      | some c => rw [hcp] at h; cases h
  · intro h
    subst h
    rfl

/-! ### The head split of `Luhn.validate` -/

theorem headChars_append (c : Nat) :
    ∀ (p : List Nat) (i : Nat), headChars (p ++ [c]) i (i + strLen p) = p := by
  intro p
  induction p with
  | nil =>
    intro i
    rw [List.nil_append, headChars, strLen_nil, Nat.add_zero, if_neg (Nat.lt_irrefl i)]
  | cons hd tl ih =>
    intro i
    rw [List.cons_append, headChars, strLen_cons,
      if_pos (by have := csize_pos hd; omega)]
    have hassoc : i + (csize hd + strLen tl) = (i + csize hd) + strLen tl := by omega
    rw [hassoc, ih (i + csize hd)]

theorem strLen_singleton (c : Nat) : strLen [c] = csize c := by
  simp [strLen]

theorem one_le_strLen {s : List Nat} (h : s ≠ []) : 1 ≤ strLen s := by
  rcases Nat.eq_zero_or_pos (strLen s) with h0 | h1
  · exact absurd (strLen_eq_zero.mp h0) h
  · exact h1

theorem validate_append_check (l : Luhn) (p : List Nat) (c : Nat)
    (hp : p ≠ []) (hcs : csize c = 1) (hc : l.generate p = some (.ok c)) :
    l.validate (p ++ [c]) = some (.ok true) := by
  have h1 : strLen (p ++ [c]) = strLen p + 1 := by
    rw [strLen_append, strLen_singleton, hcs]
  have hple : 1 ≤ strLen p := one_le_strLen hp
  rw [Luhn.validate, if_neg (by omega)]
  dsimp only
  have hhead : headChars (p ++ [c]) 0 (strLen (p ++ [c]) - 1) = p := by
    have h2 : strLen (p ++ [c]) - 1 = 0 + strLen p := by omega
    rw [h2, headChars_append c p 0]
  rw [hhead, List.getLast?_concat, hc]
  simp

theorem headChars_ne_nil {s : List Nat} (hs : s ≠ []) (hlim : 0 < strLen s - 1) :
    headChars s 0 (strLen s - 1) ≠ [] := by
  cases s with
  | nil => exact absurd rfl hs
  | cons c rest =>
    rw [headChars, if_pos hlim]
    simp

theorem validate_error_empty_iff (l : Luhn) (s : List Nat) :
    l.validate s = some (.error .EmptyString) ↔ strLen s ≤ 1 := by
  constructor
  · intro h
    by_contra hgt
    have h2 : 2 ≤ strLen s := by omega
    have hs : s ≠ [] := by
      intro hnil
      rw [hnil, strLen_nil] at h2
      omega
    rw [Luhn.validate, if_neg (by omega)] at h
    dsimp only at h
    cases hgl : s.getLast? with
    | none => rw [hgl] at h; cases h
    | some x =>
      rw [hgl] at h
      have hhead : headChars s 0 (strLen s - 1) ≠ [] := headChars_ne_nil hs (by omega)
      cases hg : l.generate (headChars s 0 (strLen s - 1)) with
      | none => rw [hg] at h; cases h
      | some r =>
        cases r with
        | error e =>
          rw [hg] at h
          dsimp only at h
          cases h
          exact hhead ((generate_error_empty_iff l _).mp hg)
        | ok b =>
          rw [hg] at h
          dsimp only at h
          cases h
  · intro h
    rw [Luhn.validate, if_pos h]

theorem validate_with_error_empty_iff (l : Luhn) (s : List Nat) (c : Nat) :
    l.validate_with s c = some (.error .EmptyString) ↔ strLen s ≤ 1 := by
  constructor
  · intro h
    by_contra hgt
    have h2 : 2 ≤ strLen s := by omega
    have hs : s ≠ [] := by
      intro hnil
      rw [hnil, strLen_nil] at h2
      omega
    rw [Luhn.validate_with, if_neg (by omega)] at h
    cases hg : l.generate s with
    | none => rw [hg] at h; cases h
    | some r =>
      cases r with
      | error e =>
        rw [hg] at h
        dsimp only at h
        cases h
        exact hs ((generate_error_empty_iff l s).mp hg)
      | ok b =>
        rw [hg] at h
        dsimp only at h
        cases h
  · intro h
    rw [Luhn.validate_with, if_pos h]

/-! ### The duplicate scan on a sorted list -/

theorem firstDup_sorted_aux :
    ∀ (xs : List Nat) (p : Nat) (seen : List Nat), xs.Sorted (· ≤ ·) →
      (∀ a ∈ seen, a ≤ p) → p ∈ seen → (∀ b ∈ xs, p ≤ b) →
      firstDup xs seen = firstAdj (p :: xs) := by
  intro xs
  induction xs with
  | nil => intro p seen _ _ _ _; rfl
  | cons x rest ih =>
    intro p seen hs hle hp hpb
    have hpx : p ≤ x := hpb x (by simp)
    rw [firstAdj]
    by_cases hxp : p = x
    · rw [if_pos hxp, firstDup, if_pos (hxp ▸ hp), hxp]
    · rw [if_neg hxp, firstDup]
      have hxseen : x ∉ seen := by
        intro hx
        exact hxp (Nat.le_antisymm hpx (hle x hx))
      rw [if_neg hxseen]
      rw [List.sorted_cons] at hs
      exact ih x (x :: seen)
        hs.2
        (by
          intro a ha
          rcases List.mem_cons.mp ha with h1 | h1
          · omega
          · exact Nat.le_trans (hle a h1) hpx)
        (by simp)
        hs.1

theorem firstDup_eq_firstAdj {xs : List Nat} (hs : xs.Sorted (· ≤ ·)) :
    firstDup xs [] = firstAdj xs := by
  cases xs with
  | nil => rfl
  | cons x rest =>
    rw [firstDup, if_neg (List.not_mem_nil x)]
    rw [List.sorted_cons] at hs
    exact firstDup_sorted_aux rest x [x] hs.2 (by simp) (by simp) hs.1

theorem nodup_of_firstAdj_none :
    ∀ (xs : List Nat), xs.Sorted (· ≤ ·) → firstAdj xs = none → xs.Nodup := by
  intro xs
  induction xs with
  | nil => intro _ _; exact List.nodup_nil
  | cons x rest ih =>
    intro hs hfa
    cases rest with
    | nil => simp
    | cons y rest' =>
      rw [firstAdj] at hfa
      by_cases hxy : x = y
      · rw [if_pos hxy] at hfa; cases hfa
      · rw [if_neg hxy] at hfa
        rw [List.sorted_cons] at hs
        have hnd : (y :: rest').Nodup := ih hs.2 hfa
        refine List.nodup_cons.mpr ⟨?_, hnd⟩
        intro hx
        rcases List.mem_cons.mp hx with h1 | h1
        · exact hxy h1
        · have hyx : y ≤ x := by
            rw [List.sorted_cons] at hs
            exact hs.2.1 x h1
          have hxyle : x ≤ y := hs.1 y (by simp)
          exact hxy (Nat.le_antisymm hxyle hyx)

theorem firstAdj_min :
    ∀ (xs : List Nat), xs.Sorted (· ≤ ·) → ∀ c, firstAdj xs = some c →
      2 ≤ xs.count c ∧ ∀ y, 2 ≤ xs.count y → c ≤ y := by
  intro xs
  induction xs with
  | nil => intro _ c h; cases h
  | cons x rest ih =>
    intro hs c hfa
    cases rest with
    | nil => cases hfa
    | cons y rest' =>
      rw [List.sorted_cons] at hs
      rw [firstAdj] at hfa
      by_cases hxy : x = y
      · rw [if_pos hxy] at hfa
        cases hfa
        constructor
        · have hxy' : (y == x) = true := by simp [hxy]
          rw [List.count_cons_self, List.count_cons, if_pos hxy']
          omega
        · intro z hz
          have hzmem : z ∈ x :: y :: rest' := by
            have : 0 < (x :: y :: rest').count z := by omega
            exact List.count_pos_iff.mp this
          rcases List.mem_cons.mp hzmem with h1 | h1
          · omega
          · exact hs.1 z h1
      · rw [if_neg hxy] at hfa
        obtain ⟨hc2, hcmin⟩ := ih hs.2 c hfa
        have hxtail : x ∉ y :: rest' := by
          intro hx
          rcases List.mem_cons.mp hx with h1 | h1
          · exact hxy h1
          · have hyx : y ≤ x := by
              rw [List.sorted_cons] at hs
              exact hs.2.1 x h1
            exact hxy (Nat.le_antisymm (hs.1 y (by simp)) hyx)
        have hxc : x ≠ c := by
          intro hxc
          have : c ∈ y :: rest' := List.count_pos_iff.mp (by omega)
          exact hxtail (hxc ▸ this)
        constructor
        · rw [List.count_cons, if_neg (by simp only [beq_iff_eq]; exact fun h => hxc h)]
          omega
        · intro z hz
          by_cases hzx : z = x
          · exfalso
            rw [hzx, List.count_cons_self] at hz
            have : x ∈ y :: rest' := List.count_pos_iff.mp (by omega)
            exact hxtail this
          · rw [List.count_cons, if_neg (by simp only [beq_iff_eq]; exact fun h => hzx h.symm)] at hz
            exact hcmin z (by omega)

/-! ### Claim theorems -/

/-- Claim C1: for every engine built by `Luhn.new` and every non-empty payload
whose characters all lie in the alphabet, `generate` scans the payload left to
right with `factor` starting at 1 and toggling between 1 and 2 after each
character, computes `addend = factor * codepoint`, reduces it as
`addend / n + addend % n`, accumulates the sum, and returns the alphabet
character at position `(n - sum % n) % n`; in particular for alphabet
`"abcdef"`, `generate "abcdef" = 'e'`, and for alphabet `"0123456789"`,
`generate "7992739871" = '3'`. -/
theorem C1_generate_algorithm (a p : List Nat) (l : Luhn)
    (hl : Luhn.new a = .ok l) (hp : p ≠ []) (hmem : ∀ ch ∈ p, ch ∈ l.alphabet) :
    l.generate p =
      some (.ok (l.alphabet.getD
        ((l.alphabet.length - claimSum l p 1 % l.alphabet.length) % l.alphabet.length) 0)) ∧
    Luhn.new alphaAF = .ok luhnAF ∧ luhnAF.generate alphaAF = some (.ok 101) ∧
    Luhn.new alphaDigits = .ok luhnDigits ∧
    luhnDigits.generate [55, 57, 57, 50, 55, 51, 57, 56, 55, 49] = some (.ok 51) :=
  ⟨generate_eq_claim l p (new_ok_alphabet_ne_nil hl) hp hmem, rfl, rfl, rfl, rfl⟩

/-- Witness for C1 at alphabet `"ab"`, payload `"a"`. -/
theorem C1_generate_algorithm_witness :
    luhnAB.generate [97] =
      some (.ok (luhnAB.alphabet.getD
        ((luhnAB.alphabet.length - claimSum luhnAB [97] 1 % luhnAB.alphabet.length) %
          luhnAB.alphabet.length) 0)) :=
  (C1_generate_algorithm [97, 98] [97] luhnAB rfl (by simp) (by decide)).1

/-- Claim C2 fails as stated; counterexamples: with alphabet `"ab"` and the
one-character payload `"a"` (check character `'a'`), `validate_with` returns
the `EmptyString` error instead of `true`, because it rejects inputs of byte
length ≤ 1; and with the two-byte alphabet `"àá"` and payload `"á"` (check
character `'á'`), `validate` returns `false` instead of `true`, because the
byte-indexed head split keeps the trailing two-byte check character in the
generated-over head. -/
theorem C2_roundtrip_counterexample :
    Luhn.new [97, 98] = .ok luhnAB ∧
    luhnAB.generate [97] = some (.ok 97) ∧
    luhnAB.validate_with [97] 97 = some (.error .EmptyString) ∧
    Luhn.new [224, 225] = .ok luhnAccent ∧
    luhnAccent.generate [225] = some (.ok 225) ∧
    luhnAccent.validate [225, 225] = some (.ok false) :=
  ⟨rfl, rfl, rfl, rfl, rfl, rfl⟩

/-- Claim C2 (amended): for every engine and every non-empty payload `p` over
its alphabet, letting `c = generate p`: if the check character `c` is a
single-byte character then `validate (p ++ [c]) = true`, and if the payload's
byte length is at least 2 then `validate_with p c = true`. -/
theorem C2_roundtrip (a p : List Nat) (l : Luhn) (c : Nat)
    (_hl : Luhn.new a = .ok l) (hp : p ≠ []) (_hmem : ∀ ch ∈ p, ch ∈ l.alphabet)
    (hc : l.generate p = some (.ok c)) :
    (csize c = 1 → l.validate (p ++ [c]) = some (.ok true)) ∧
    (2 ≤ strLen p → l.validate_with p c = some (.ok true)) := by
  constructor
  · intro hcs
    exact validate_append_check l p c hp hcs hc
  · intro hlen
    rw [Luhn.validate_with, if_neg (by omega), hc]
    simp

/-- Witness for C2 at alphabet `"ab"`, payload `"ab"`, check character `'b'`. -/
theorem C2_roundtrip_witness :
    luhnAB.validate [97, 98, 98] = some (.ok true) ∧
    luhnAB.validate_with [97, 98] 98 = some (.ok true) :=
  ⟨(C2_roundtrip [97, 98] [97, 98] luhnAB 98 rfl (by simp) (by decide) rfl).1 rfl,
   (C2_roundtrip [97, 98] [97, 98] luhnAB 98 rfl (by simp) (by decide) rfl).2 (by decide)⟩

/-- Claim C3: on the engine for the two-byte alphabet `"àá"` and the
two-character input `"áá"`, the final character is `'á'` and
`generate "á" = 'á'`, so splitting off the last character as the claim (and
the function's own documentation) describes would validate to `true`; the
code instead returns `false`, because the head is computed with byte indices
(`index < s.len() - 1`) and so retains the trailing two-byte character:
`generate "áá" = 'à' ≠ 'á'`. -/
theorem C3_validate_split_bug :
    Luhn.new [224, 225] = .ok luhnAccent ∧
    ([225, 225] : List Nat).getLast? = some 225 ∧
    luhnAccent.generate [225] = some (.ok 225) ∧
    luhnAccent.generate [225, 225] = some (.ok 224) ∧
    luhnAccent.validate [225, 225] = some (.ok false) :=
  ⟨rfl, rfl, rfl, rfl, rfl⟩

/-- Claim C4 fails as stated: for the character sequence `"bbaa"`, the first
duplicate encountered in the caller-supplied order is `'b'`, but the
constructor reports `'a'`, because it sorts the characters before scanning
for duplicates. -/
theorem C4_duplicate_counterexample :
    Luhn.new [98, 98, 97, 97] = .error (.NotUnique 97) ∧
    LuhnError.NotUnique 97 ≠ LuhnError.NotUnique 98 :=
  ⟨rfl, by decide⟩

/-- Claim C4 (amended): for every character sequence containing a repeated
character, construction fails with a duplicate-character error carrying the
first duplicate encountered while scanning the sequence in sorted order —
that is, the smallest character that occurs at least twice. -/
theorem C4_duplicate_sorted (a : List Nat) (hdup : ¬ a.Nodup) :
    ∃ ch, Luhn.new a = .error (.NotUnique ch) ∧ 2 ≤ a.count ch ∧
      ∀ y, 2 ≤ a.count y → ch ≤ y := by
  have hne : a ≠ [] := fun h => hdup (h ▸ List.nodup_nil)
  have hlen : ¬ a.length < 1 := by
    cases a with
    | nil => exact absurd rfl hne
    | cons x t => simp
  have hperm := sortChars_perm a
  have hsort := sortChars_sorted a
  have hdup' : ¬ (sortChars a).Nodup := fun h => hdup (hperm.nodup_iff.mp h)
  cases hfa : firstAdj (sortChars a) with
  | none => exact absurd (nodup_of_firstAdj_none _ hsort hfa) hdup'
  | some c =>
    have hfd : firstDup (sortChars a) [] = some c := (firstDup_eq_firstAdj hsort).trans hfa
    obtain ⟨hc2, hmin⟩ := firstAdj_min _ hsort c hfa
    refine ⟨c, ?_, ?_, ?_⟩
    · rw [Luhn.new, if_neg hlen]
      dsimp only
      rw [hfd]
    · rw [← hperm.count_eq c]
      exact hc2
    · intro y hy
      refine hmin y ?_
      rw [hperm.count_eq y]
      exact hy

/-- Witness for C4 at the sequence `"aba"`. -/
theorem C4_duplicate_sorted_witness :
    ¬ ([97, 98, 97] : List Nat).Nodup ∧
    ∃ ch, Luhn.new [97, 98, 97] = .error (.NotUnique ch) ∧
      2 ≤ ([97, 98, 97] : List Nat).count ch ∧
      ∀ y, 2 ≤ ([97, 98, 97] : List Nat).count y → ch ≤ y :=
  ⟨by decide, C4_duplicate_sorted [97, 98, 97] (by decide)⟩

/-- Claim C5 fails as stated: the crate has a single `EmptyString` error
variant, so the error value returned by `new ""` equals the error value
returned by `generate ""` — both are `LuhnError.EmptyString`. -/
theorem C5_empty_same_error_counterexample :
    Luhn.new ([] : List Nat) = .error .EmptyString ∧
    luhnAB.generate [] = some (.error .EmptyString) :=
  ⟨rfl, rfl⟩

/-- Claim C5 (amended): constructing the engine from an empty character
sequence fails with the `EmptyString` error, the very same error value that
`generate` returns on an empty payload (the error type does not distinguish
the two cases). -/
theorem C5_empty_same_error (l : Luhn) :
    Luhn.new ([] : List Nat) = .error .EmptyString ∧
    l.generate [] = some (.error .EmptyString) :=
  ⟨rfl, rfl⟩

/-- Witness for C5 on the engine for alphabet `"abcdef"`. -/
theorem C5_empty_same_error_witness :
    luhnAF.generate [] = some (.error .EmptyString) :=
  (C5_empty_same_error luhnAF).2

/-- Claim C6 fails as stated: on the engine for the two-byte alphabet `"àá"`,
the single-character input `"á"` has byte length 2, so `validate` does not
fail with the `EmptyString` error — it returns `true`. -/
theorem C6_empty_error_counterexample :
    Luhn.new [224, 225] = .ok luhnAccent ∧
    ([225] : List Nat).length = 1 ∧
    luhnAccent.validate [225] = some (.ok true) :=
  ⟨rfl, rfl, rfl⟩

/-- Claim C6 (amended): `generate` fails with the `EmptyString` error iff the
payload has zero characters, and `validate` and `validate_with` fail with the
`EmptyString` error iff the input's UTF-8 byte length is at most 1; in
particular, on inputs of two or more characters neither `validate` nor
`validate_with` produces that error. -/
theorem C6_empty_error_byte_length (l : Luhn) (p s : List Nat) (c : Nat) :
    (l.generate p = some (.error .EmptyString) ↔ p = []) ∧
    (l.validate s = some (.error .EmptyString) ↔ strLen s ≤ 1) ∧
    (l.validate_with s c = some (.error .EmptyString) ↔ strLen s ≤ 1) ∧
    (2 ≤ s.length →
      l.validate s ≠ some (.error .EmptyString) ∧
      l.validate_with s c ≠ some (.error .EmptyString)) := by
  refine ⟨generate_error_empty_iff l p, validate_error_empty_iff l s,
    validate_with_error_empty_iff l s c, ?_⟩
  intro hlen
  have h2 : 2 ≤ strLen s := Nat.le_trans hlen (length_le_strLen s)
  constructor
  · intro h
    have := (validate_error_empty_iff l s).mp h
    omega
  · intro h
    have := (validate_with_error_empty_iff l s c).mp h
    omega

/-- Witness for C6: `validate "a"` on the engine for `"ab"` fails with the
`EmptyString` error. -/
theorem C6_empty_error_byte_length_witness :
    luhnAB.validate [97] = some (.error .EmptyString) :=
  (C6_empty_error_byte_length luhnAB [] [97] 97).2.1.mpr (by decide)

/-- Claim C7: for every input containing at least one character not in the
alphabet, `generate` fails with `InvalidCharacter` carrying the first
offending character in left-to-right scan order (the input decomposes as
`pre ++ b :: post` with every character of `pre` in the alphabet and `b`
not in it). -/
theorem C7_first_invalid (l : Luhn) (pre post : List Nat) (b : Nat)
    (hpre : ∀ ch ∈ pre, ch ∈ l.alphabet) (hb : b ∉ l.alphabet) :
    l.generate (pre ++ b :: post) = some (.error (.InvalidCharacter b)) := by
  have hne : (pre ++ b :: post) ≠ [] := by simp
  have hlen : ¬ strLen (pre ++ b :: post) = 0 := fun h => hne (strLen_eq_zero.mp h)
  rw [Luhn.generate, if_neg hlen, genSum_first_bad l b post hb pre 1 0 hpre]

/-- Witness for C7: `generate "012345"` on the engine for `"abcdef"` fails
with `InvalidCharacter '0'`. -/
theorem C7_first_invalid_witness :
    luhnAF.generate [48, 49, 50, 51, 52, 53] = some (.error (.InvalidCharacter 48)) :=
  C7_first_invalid luhnAF [] [49, 50, 51, 52, 53] 48 (by simp) (by decide)

/-- Claim C8: two engines successfully constructed from permutations of the
same characters are identical in behavior: `generate`, `validate` and
`validate_with` agree on every input. -/
theorem C8_permutation_invariant (a b : List Nat) (la lb : Luhn)
    (hab : a.Perm b) (ha : Luhn.new a = .ok la) (hb : Luhn.new b = .ok lb) :
    (∀ s, la.generate s = lb.generate s) ∧
    (∀ s, la.validate s = lb.validate s) ∧
    (∀ s c, la.validate_with s c = lb.validate_with s c) := by
  have hsorteq : sortChars a = sortChars b :=
    List.eq_of_perm_of_sorted ((sortChars_perm a).trans (hab.trans (sortChars_perm b).symm))
      (sortChars_sorted a) (sortChars_sorted b)
  have h1 := (new_ok ha).1
  have h2 := (new_ok hb).1
  have heq : la = lb := by
    cases la with
    | mk al =>
      cases lb with
      | mk bl =>
        dsimp only at h1 h2
        rw [h1, h2, hsorteq]
  subst heq
  exact ⟨fun s => rfl, fun s => rfl, fun s c => rfl⟩

/-- Witness for C8: the engines for `"ba"` and `"ab"` agree everywhere. -/
theorem C8_permutation_invariant_witness :
    (∀ s, luhnAB.generate s = luhnAB.generate s) ∧
    (∀ s, luhnAB.validate s = luhnAB.validate s) ∧
    (∀ s c, luhnAB.validate_with s c = luhnAB.validate_with s c) :=
  C8_permutation_invariant [98, 97] [97, 98] luhnAB luhnAB (List.Perm.swap 97 98 []) rfl rfl

/-- Claim C9: for every successfully constructed engine and every non-empty
payload drawn from its alphabet, `generate` succeeds (no error, no panic)
and the returned check character is itself a member of the alphabet. -/
theorem C9_generate_total (a p : List Nat) (l : Luhn)
    (hl : Luhn.new a = .ok l) (hp : p ≠ []) (hmem : ∀ ch ∈ p, ch ∈ l.alphabet) :
    ∃ c, l.generate p = some (.ok c) ∧ c ∈ l.alphabet := by
  have hne := new_ok_alphabet_ne_nil hl
  refine ⟨_, generate_eq_claim l p hne hp hmem, ?_⟩
  have hidx := claim_index_lt l hne (claimSum l p 1)
  rw [List.getD_eq_getElem l.alphabet 0 hidx]
  exact List.getElem_mem hidx

/-- Witness for C9 at alphabet `"ab"`, payload `"b"`. -/
theorem C9_generate_total_witness :
    ∃ c, luhnAB.generate [98] = some (.ok c) ∧ c ∈ luhnAB.alphabet :=
  C9_generate_total [97, 98] [98] luhnAB rfl (by simp) (by decide)

/-- Claim C10: for every successfully constructed engine, the check codepoint
`(n - sum % n) % n` is strictly below the alphabet length `n`, so the final
positional lookup never goes out of bounds — `generate` never panics — and
the only errors `generate` can produce are the empty-input error and an
invalid-character error from the per-character lookup. -/
theorem C10_no_out_of_bounds (a : List Nat) (l : Luhn) (hl : Luhn.new a = .ok l) :
    (∀ x : Nat,
      (l.alphabet.length - x % l.alphabet.length) % l.alphabet.length < l.alphabet.length) ∧
    (∀ s, l.generate s ≠ none) ∧
    (∀ s e, l.generate s = some (.error e) →
      e = .EmptyString ∨ ∃ ch, ch ∈ s ∧ ch ∉ l.alphabet ∧ e = .InvalidCharacter ch) := by
  have hne := new_ok_alphabet_ne_nil hl
  refine ⟨fun x => claim_index_lt l hne x, ?_, ?_⟩
  · intro s
    by_cases hz : strLen s = 0
    · rw [Luhn.generate, if_pos hz]
      simp
    · rw [Luhn.generate, if_neg hz]
      cases hgs : l.genSum s 1 0 with
      | error e => simp
      | ok sum =>
        dsimp only
        have hidx := claim_index_lt l hne sum
        rw [Luhn.character_from_codepoint, List.getElem?_eq_getElem hidx]
        simp
  · intro s e h
    by_cases hz : strLen s = 0
    · rw [Luhn.generate, if_pos hz] at h
      simp only [Option.some.injEq, Except.error.injEq] at h
      exact Or.inl h.symm
    · rw [Luhn.generate, if_neg hz] at h
      cases hgs : l.genSum s 1 0 with
      | error e' =>
        rw [hgs] at h
        simp only [Option.some.injEq, Except.error.injEq] at h
        subst h
        obtain ⟨c, hc1, hc2, hc3⟩ := genSum_error_form l s 1 0 e' hgs
        exact Or.inr ⟨c, hc1, hc2, hc3⟩
      | ok sum =>
        rw [hgs] at h
        dsimp only at h
        have hidx := claim_index_lt l hne sum
        rw [Luhn.character_from_codepoint, List.getElem?_eq_getElem hidx] at h
        simp at h

/-- Witness for C10 on the engine for `"ab"`. -/
theorem C10_no_out_of_bounds_witness :
    (∀ x : Nat,
      (luhnAB.alphabet.length - x % luhnAB.alphabet.length) % luhnAB.alphabet.length <
        luhnAB.alphabet.length) ∧
    (∀ s, luhnAB.generate s ≠ none) ∧
    (∀ s e, luhnAB.generate s = some (.error e) →
      e = .EmptyString ∨ ∃ ch, ch ∈ s ∧ ch ∉ luhnAB.alphabet ∧ e = .InvalidCharacter ch) :=
  C10_no_out_of_bounds [97, 98] luhnAB rfl
